import Mathlib

/-!
Verification of the text-formatting core of the Orbitchatbot frontend.

The program under study is `formatText` in
`src/react-frontend/src/components/FormattedText.tsx`, a single-pass
line scanner that turns a text string into a list of display blocks
(headers, paragraphs, numbered groups, bulleted groups, code lines),
and `getPreviewText` in `src/react-frontend/src/components/ExpandableText.tsx`,
a character-budget preview truncation.

Strings are modelled as `List Char` (each source line contains no
newline, so JavaScript UTF-16 code-unit indexing and character indexing
agree on every construct the code uses).  Regular expressions of the
source are unfolded into the equivalent maximal-munch character
scanners; for each regex the disjointness of the relevant character
classes makes maximal munch equivalent to backtracking search.
-/

namespace OrbitFmt

/-- The JavaScript whitespace class: `trim()` and the regex class `\s`
accept the ASCII control whitespace, the space separators, and the BOM.
(Lines produced by splitting on a line feed cannot contain a line feed,
but we keep it for faithfulness of `trim`.) -/
def isWS (c : Char) : Bool :=
  c = ' ' || c = '\t' || c = '\n' || c = '\r' || c = '\x0b' || c = '\x0c' ||
  c = '\u00a0' || c = '\u1680' || ('\u2000' ≤ c && c ≤ '\u200a') ||
  c = '\u2028' || c = '\u2029' || c = '\u202f' || c = '\u205f' ||
  c = '\u3000' || c = '\ufeff'

/-- `String.prototype.trim`: drop whitespace from both ends. -/
def trim (l : List Char) : List Char :=
  ((l.dropWhile isWS).reverse.dropWhile isWS).reverse

/-- The regex class `\d`. -/
def isDigitC (c : Char) : Bool := '0' ≤ c && c ≤ '9'

/-- The JavaScript line terminators, which the regex `.` never matches
(the source's regexes carry no `s` flag). -/
def isLineTerm (c : Char) : Bool :=
  c = '\n' || c = '\r' || c = '\u2028' || c = '\u2029'

/-- The line-terminator characters other than the line feed: these can
survive inside a line produced by `split('\n')`. -/
def isHardTerm (c : Char) : Bool :=
  c = '\r' || c = '\u2028' || c = '\u2029'

/-- Decimal value of a digit string (`parseInt` on an all-digit string). -/
def digitsVal (ds : List Char) : Nat :=
  ds.foldl (fun a c => 10 * a + (c.toNat - '0'.toNat)) 0

/-- The numbered-item regex `^(\d+)\.\s*(.*)` of the source: one or more
digits, a period, greedy whitespace, then the captured remainder.
The capture `(.*)` extends to the first line terminator (the regex `.`
does not cross one), so the stored content is the remainder after the
period and greedy whitespace, truncated at the first line terminator.
Returns `(parsed number, content)` on success. -/
def numMatch (l : List Char) : Option (Nat × List Char) :=
  let ds := l.takeWhile isDigitC
  if ds.isEmpty then none
  else
    match l.dropWhile isDigitC with
    | '.' :: r => some (digitsVal ds, (r.dropWhile isWS).takeWhile (fun c => !(isLineTerm c)))
    | _ => none

/-- The header regex `^\*\*.*\*\*$` of the source: the line starts with
`**`, ends with `**`, the two marker pairs do not overlap (the line has
length at least four), and the interior contains no line terminator
(`.` cannot match one).  `.*` may be empty, so `****` matches. -/
def headerMatch (l : List Char) : Bool :=
  decide (4 ≤ l.length) && l.take 2 == ['*', '*'] && l.reverse.take 2 == ['*', '*'] &&
  ((l.drop 2).take (l.length - 4)).all (fun c => !(isLineTerm c))

/-- `trimmedLine.replace(/\*\*/g, '')`: remove every non-overlapping
occurrence of `**`, scanning left to right. -/
def stripStars : List Char → List Char
  | '*' :: '*' :: rest => stripStars rest
  | c :: rest => c :: stripStars rest
  | [] => []

/-- `trimmedLine.startsWith('•')`. -/
def bulletMatch (l : List Char) : Bool :=
  match l with
  | '•' :: _ => true
  | _ => false

/-- `trimmedLine.substring(1).trim()`, the content of a bullet line. -/
def bulletContent (l : List Char) : List Char := trim (l.drop 1)

/-- The regex class `[a-zA-Z_$]`. -/
def isIdentStart (c : Char) : Bool :=
  ('a' ≤ c && c ≤ 'z') || ('A' ≤ c && c ≤ 'Z') || c = '_' || c = '$'

/-- The regex class `[a-zA-Z0-9_$]`. -/
def isIdentChar (c : Char) : Bool := isIdentStart c || isDigitC c

/-- The identifier-assignment regex `^[a-zA-Z_$][a-zA-Z0-9_$]*\s*[=:({]`. -/
def identAssignMatch (l : List Char) : Bool :=
  match l with
  | [] => false
  | c :: rest =>
    isIdentStart c &&
      match (rest.dropWhile isIdentChar).dropWhile isWS with
      | d :: _ => d = '=' || d = ':' || d = '(' || d = '{'
      | [] => false

/-- `String.prototype.includes(sub)`: `sub` occurs as a contiguous
substring of `l`. -/
def containsSub (sub : List Char) : List Char → Bool
  | [] => sub.isEmpty
  | c :: rest => sub.isPrefixOf (c :: rest) || containsSub sub rest

/-- The code-line test of the source: the untrimmed line starts with
four spaces, or the trimmed line contains one of the code-indicative
substrings, or it matches the identifier-assignment regex. -/
def codeMatch (line trimmed : List Char) : Bool :=
  line.take 4 == [' ', ' ', ' ', ' '] ||
  containsSub "def ".data trimmed ||
  containsSub "function ".data trimmed ||
  containsSub "const ".data trimmed ||
  containsSub "import ".data trimmed ||
  identAssignMatch trimmed

/-- An output block of `formatText`.  Group blocks own their ordered
items; numbered items carry the parsed integer and the content. -/
inductive Block where
  | header (content : List Char)
  | para (content : List Char)
  | numbered (items : List (Nat × List Char))
  | bullet (items : List (List Char))
  | code (content : List Char)
deriving DecidableEq, Repr

/-- The pending-group state (`listType` together with `currentList`):
either no pending group, or a numbered buffer, or a bulleted buffer. -/
inductive Pending where
  | none
  | numbered (items : List (Nat × List Char))
  | bullet (items : List (List Char))
deriving DecidableEq, Repr

/-- `flushList` of the source: if the buffer is non-empty, emit it as
one group block and reset the state; an empty buffer emits nothing and
leaves the state unchanged. -/
def flushF : Pending → List Block × Pending
  | Pending.none => ([], Pending.none)
  | Pending.numbered its =>
    if its.isEmpty then ([], Pending.numbered its) else ([Block.numbered its], Pending.none)
  | Pending.bullet its =>
    if its.isEmpty then ([], Pending.bullet its) else ([Block.bullet its], Pending.none)

/-- Accumulated formatter state: emitted blocks plus the pending group. -/
structure FmtState where
  out : List Block
  pending : Pending
deriving DecidableEq, Repr

/-- One iteration of the `lines.forEach` body of `formatText`: classify
the line in the source's fixed order (blank, header, numbered, bulleted,
code, paragraph) and update the state. -/
def step (st : FmtState) (line : List Char) : FmtState :=
  let t := trim line
  if t.isEmpty then
    let f := flushF st.pending
    ⟨st.out ++ f.1, f.2⟩
  else if headerMatch t then
    let f := flushF st.pending
    ⟨st.out ++ f.1 ++ [Block.header (stripStars t)], f.2⟩
  else
    match numMatch t with
    | some it =>
      match st.pending with
      | Pending.numbered its => ⟨st.out, Pending.numbered (its ++ [it])⟩
      | p =>
        let f := flushF p
        ⟨st.out ++ f.1, Pending.numbered [it]⟩
    | none =>
      if bulletMatch t then
        match st.pending with
        | Pending.bullet its => ⟨st.out, Pending.bullet (its ++ [bulletContent t])⟩
        | p =>
          let f := flushF p
          ⟨st.out ++ f.1, Pending.bullet [bulletContent t]⟩
      else if codeMatch line t then
        let f := flushF st.pending
        ⟨st.out ++ f.1 ++ [Block.code line], f.2⟩
      else
        let f := flushF st.pending
        ⟨st.out ++ f.1 ++ [Block.para t], f.2⟩

/-- `text.split('\n')` on the character list. -/
def splitLines : List Char → List (List Char)
  | [] => [[]]
  | c :: rest =>
    if c = '\n' then [] :: splitLines rest
    else
      match splitLines rest with
      | [] => [[c]]
      | h :: t => (c :: h) :: t

/-- `formatText` of the source: the empty string is falsy and yields no
blocks; otherwise split into lines, run the scanner, and flush the
remaining pending group. -/
def formatText (s : String) : List Block :=
  if s.data.isEmpty then []
  else
    let st := (splitLines s.data).foldl step ⟨[], Pending.none⟩
    st.out ++ (flushF st.pending).1

/-- `formatText` as called by the component: an absent (`undefined`)
input is falsy, like the empty string, and yields no blocks. -/
def formatTextOpt : Option String → List Block
  | Option.none => []
  | Option.some s => formatText s

/-- The six classification outcomes of a line. -/
inductive Kind where
  | blank
  | header
  | numbered
  | bullet
  | code
  | para
deriving DecidableEq, Repr

/-- The classification chain of the source, in its fixed order. -/
def classify (line : List Char) : Kind :=
  let t := trim line
  if t.isEmpty then Kind.blank
  else if headerMatch t then Kind.header
  else if (numMatch t).isSome then Kind.numbered
  else if bulletMatch t then Kind.bullet
  else if codeMatch line t then Kind.code
  else Kind.para

/-- `true` exactly on lines the chain classifies as numbered items. -/
def isNumLine (l : List Char) : Bool :=
  match classify l with
  | Kind.numbered => true
  | _ => false

/-- `true` exactly on lines the chain classifies as bulleted items. -/
def isBulLine (l : List Char) : Bool :=
  match classify l with
  | Kind.bullet => true
  | _ => false

/-- The numbered item a numbered-classified line contributes. -/
def numItemOf (l : List Char) : Nat × List Char :=
  (numMatch (trim l)).getD (0, [])

/-- The bulleted item a bullet-classified line contributes. -/
def bulItemOf (l : List Char) : List Char := bulletContent (trim l)

/-- Specification-level recursion, modelled from the spec's grouping
invariant: blocks appear in the order of their first triggering line,
and every maximal run of consecutive lines of the same list kind
becomes exactly one group block; a blank line or a kind change ends
the run. -/
def blocksSpec : List (List Char) → List Block
  | [] => []
  | l :: rest =>
    match classify l with
    | Kind.blank => blocksSpec rest
    | Kind.header => Block.header (stripStars (trim l)) :: blocksSpec rest
    | Kind.numbered =>
      Block.numbered ((l :: rest.takeWhile isNumLine).map numItemOf) ::
        blocksSpec (rest.dropWhile isNumLine)
    | Kind.bullet =>
      Block.bullet ((l :: rest.takeWhile isBulLine).map bulItemOf) ::
        blocksSpec (rest.dropWhile isBulLine)
    | Kind.code => Block.code l :: blocksSpec rest
    | Kind.para => Block.para (trim l) :: blocksSpec rest
termination_by ls => ls.length
decreasing_by
  all_goals simp only [List.length_cons]
  all_goals first
    | exact Nat.lt_succ_self _
    | exact Nat.lt_succ_of_le ((List.dropWhile_sublist _).length_le)

/-- The blocks already emitted plus the final `flushList()` of the
source, applied to a formatter state. -/
def finalize (st : FmtState) : List Block :=
  st.out ++ (flushF st.pending).1

/-- Reachability invariant of the scanner state: whenever a list kind
is pending, its buffer is non-empty (the source pushes an item
immediately after setting `listType`). -/
def pendingOK : Pending → Prop
  | Pending.none => True
  | Pending.numbered its => its ≠ []
  | Pending.bullet its => its ≠ []

/-- The blocks the scanner still produces from a pending group followed
by the remaining lines: the pending group absorbs the leading run of
lines of its own kind, then the rest is grouped structurally. -/
def glue : Pending → List (List Char) → List Block
  | Pending.none, lines => blocksSpec lines
  | Pending.numbered its, lines =>
    Block.numbered (its ++ (lines.takeWhile isNumLine).map numItemOf) ::
      blocksSpec (lines.dropWhile isNumLine)
  | Pending.bullet its, lines =>
    Block.bullet (its ++ (lines.takeWhile isBulLine).map bulItemOf) ::
      blocksSpec (lines.dropWhile isBulLine)

/-- The visible textual content of a block: what the component renders
apart from the added markers (the re-rendered `"{number}. "` prefixes
of numbered items and the `"• "` prefixes of bulleted items). -/
def visibleOfBlock : Block → List Char
  | Block.header c => c
  | Block.para c => c
  | Block.code c => c
  | Block.numbered its => (its.map Prod.snd).flatten
  | Block.bullet its => its.flatten

/-- Drop the blank (whitespace) characters of a character list. -/
def nonBlank (l : List Char) : List Char :=
  l.filter (fun c => !(isWS c))

/-- The visible content of all emitted blocks, concatenated in order. -/
def visibleConcat (s : String) : List Char :=
  ((formatText s).map visibleOfBlock).flatten

/-- The non-blank, non-marker characters of one input line, in their
original order: whitespace is blank; the marker characters are the
`**` pairs of a header line, the digit prefix and period of a numbered
line, and the bullet glyph of a bulleted line.  For a numbered line the
non-marker characters are those of the full remainder after the digit
prefix and the period (this is the claim's notion; the code stores the
remainder truncated at the first line terminator). -/
def scrubLine (l : List Char) : List Char :=
  match classify l with
  | Kind.blank => []
  | Kind.header => nonBlank (stripStars (trim l))
  | Kind.numbered => nonBlank ((((trim l).dropWhile isDigitC).drop 1).dropWhile isWS)
  | Kind.bullet => nonBlank (bulItemOf l)
  | Kind.code => nonBlank l
  | Kind.para => nonBlank (trim l)

/-- The non-blank, non-marker characters of the whole input. -/
def scrub (s : String) : List Char :=
  ((splitLines s.data).map scrubLine).flatten

/-- Join lines back with the line-feed separator (left inverse of
`splitLines`). -/
def joinNL : List (List Char) → List Char
  | [] => []
  | [x] => x
  | x :: y :: t => x ++ '\n' :: joinNL (y :: t)

/-- `preview.lastIndexOf(' ')`: the largest index holding a space, or
`-1` when there is none. -/
def lastSpaceIdx : List Char → Int
  | [] => -1
  | c :: rest =>
    let r := lastSpaceIdx rest
    if 0 ≤ r then r + 1
    else if c = ' ' then 0 else -1

/-- `getPreviewText` of `ExpandableText.tsx`.  Text within the budget
is returned unchanged; otherwise the first `len` characters are taken,
and if the last space of that prefix sits beyond `0.8 * len` the cut is
made at the space, else exactly at the budget; both truncated forms get
the ellipsis marker appended.  (The JavaScript comparison
`lastSpaceIndex > length * 0.8` is computed in double precision; for
every integer index and every budget below `2 ^ 50` it decides exactly
the rational comparison `5 * lastSpaceIndex > 4 * length`, which is
what we embed.) -/
def getPreviewText (text : List Char) (len : Nat) : List Char :=
  if text.length ≤ len then text
  else
    let preview := text.take len
    let lsi := lastSpaceIdx preview
    if 4 * (len : Int) < 5 * lsi then preview.take lsi.toNat ++ "...".data
    else preview ++ "...".data

/-- `i` is the index of the last space of `l` (no space occurs later). -/
abbrev IsLastSpace (l : List Char) (i : Nat) : Prop :=
  i < l.length ∧ l.getD i 'x' = ' ' ∧ ∀ j, j < l.length → i < j → l.getD j 'x' ≠ ' '

/-- No space occurs in `l` at all. -/
abbrev NoSpace (l : List Char) : Prop :=
  ∀ j, j < l.length → l.getD j 'x' ≠ ' '

example : formatText "**Title**" = [Block.header "Title".data] := by decide
example : formatText "1. foo\n2. bar" =
    [Block.numbered [(1, "foo".data), (2, "bar".data)]] := by decide
example : formatText "1. a\n• b" =
    [Block.numbered [(1, "a".data)], Block.bullet ["b".data]] := by decide
example : formatText "    x = 1" = [Block.code "    x = 1".data] := by decide
example : formatText "****" = [Block.header []] := by decide
example : formatText "**a**b**" = [Block.header "ab".data] := by decide
example : formatText "•" = [Block.bullet [[]]] := by decide
example : formatText "01. foo" = formatText "1. foo" := by decide
example : formatText "" = [] := by decide
example : classify "1. const x".data = Kind.numbered := by decide
example : formatText "• a\n• b\n\nplain text" =
    [Block.bullet ["a".data, "b".data], Block.para "plain text".data] := by decide

lemma classify_blank_elim {l : List Char} (h : classify l = Kind.blank) :
    (trim l).isEmpty = true := by
  simp only [classify] at h
  split_ifs at h <;> simp_all

lemma classify_header_elim {l : List Char} (h : classify l = Kind.header) :
    (trim l).isEmpty = false ∧ headerMatch (trim l) = true := by
  simp only [classify] at h
  split_ifs at h <;> simp_all

lemma classify_numbered_elim {l : List Char} (h : classify l = Kind.numbered) :
    (trim l).isEmpty = false ∧ headerMatch (trim l) = false ∧
      numMatch (trim l) = Option.some (numItemOf l) := by
  simp only [classify] at h
  split_ifs at h with h1 h2 h3 <;> try simp_all
  obtain ⟨a, ha⟩ := Option.isSome_iff_exists.mp h3
  simp [numItemOf, ha]

lemma classify_bullet_elim {l : List Char} (h : classify l = Kind.bullet) :
    (trim l).isEmpty = false ∧ headerMatch (trim l) = false ∧
      numMatch (trim l) = Option.none ∧ bulletMatch (trim l) = true := by
  simp only [classify] at h
  split_ifs at h with h1 h2 h3 h4 <;> simp_all

lemma classify_code_elim {l : List Char} (h : classify l = Kind.code) :
    (trim l).isEmpty = false ∧ headerMatch (trim l) = false ∧
      numMatch (trim l) = Option.none ∧ bulletMatch (trim l) = false ∧
      codeMatch l (trim l) = true := by
  simp only [classify] at h
  split_ifs at h with h1 h2 h3 h4 h5 <;> simp_all

lemma classify_para_elim {l : List Char} (h : classify l = Kind.para) :
    (trim l).isEmpty = false ∧ headerMatch (trim l) = false ∧
      numMatch (trim l) = Option.none ∧ bulletMatch (trim l) = false ∧
      codeMatch l (trim l) = false := by
  simp only [classify] at h
  split_ifs at h with h1 h2 h3 h4 h5 <;> simp_all

lemma step_blank {l : List Char} (st : FmtState) (h : classify l = Kind.blank) :
    step st l = ⟨st.out ++ (flushF st.pending).1, (flushF st.pending).2⟩ := by
  have h1 := classify_blank_elim h
  simp [step, h1]

lemma step_header {l : List Char} (st : FmtState) (h : classify l = Kind.header) :
    step st l = ⟨st.out ++ (flushF st.pending).1 ++ [Block.header (stripStars (trim l))],
      (flushF st.pending).2⟩ := by
  obtain ⟨h1, h2⟩ := classify_header_elim h
  simp [step, h1, h2]

lemma step_num_cont {l : List Char} {out : List Block} {its : List (Nat × List Char)}
    (h : classify l = Kind.numbered) :
    step ⟨out, Pending.numbered its⟩ l = ⟨out, Pending.numbered (its ++ [numItemOf l])⟩ := by
  obtain ⟨h1, h2, h3⟩ := classify_numbered_elim h
  simp [step, h1, h2, h3]

lemma step_num_fresh {l : List Char} {out : List Block}
    (h : classify l = Kind.numbered) :
    step ⟨out, Pending.none⟩ l = ⟨out, Pending.numbered [numItemOf l]⟩ := by
  obtain ⟨h1, h2, h3⟩ := classify_numbered_elim h
  simp [step, h1, h2, h3, flushF]

lemma step_num_after_bul {l : List Char} {out : List Block} {its : List (List Char)}
    (h : classify l = Kind.numbered) :
    step ⟨out, Pending.bullet its⟩ l =
      ⟨out ++ (flushF (Pending.bullet its)).1, Pending.numbered [numItemOf l]⟩ := by
  obtain ⟨h1, h2, h3⟩ := classify_numbered_elim h
  simp [step, h1, h2, h3]

lemma step_bul_cont {l : List Char} {out : List Block} {its : List (List Char)}
    (h : classify l = Kind.bullet) :
    step ⟨out, Pending.bullet its⟩ l = ⟨out, Pending.bullet (its ++ [bulItemOf l])⟩ := by
  obtain ⟨h1, h2, h3, h4⟩ := classify_bullet_elim h
  simp [step, h1, h2, h3, h4, bulItemOf]

lemma step_bul_fresh {l : List Char} {out : List Block}
    (h : classify l = Kind.bullet) :
    step ⟨out, Pending.none⟩ l = ⟨out, Pending.bullet [bulItemOf l]⟩ := by
  obtain ⟨h1, h2, h3, h4⟩ := classify_bullet_elim h
  simp [step, h1, h2, h3, h4, bulItemOf, flushF]

lemma step_bul_after_num {l : List Char} {out : List Block} {its : List (Nat × List Char)}
    (h : classify l = Kind.bullet) :
    step ⟨out, Pending.numbered its⟩ l =
      ⟨out ++ (flushF (Pending.numbered its)).1, Pending.bullet [bulItemOf l]⟩ := by
  obtain ⟨h1, h2, h3, h4⟩ := classify_bullet_elim h
  simp [step, h1, h2, h3, h4, bulItemOf]

lemma step_code {l : List Char} (st : FmtState) (h : classify l = Kind.code) :
    step st l = ⟨st.out ++ (flushF st.pending).1 ++ [Block.code l],
      (flushF st.pending).2⟩ := by
  obtain ⟨h1, h2, h3, h4, h5⟩ := classify_code_elim h
  simp [step, h1, h2, h3, h4, h5]

lemma step_para {l : List Char} (st : FmtState) (h : classify l = Kind.para) :
    step st l = ⟨st.out ++ (flushF st.pending).1 ++ [Block.para (trim l)],
      (flushF st.pending).2⟩ := by
  obtain ⟨h1, h2, h3, h4, h5⟩ := classify_para_elim h
  simp [step, h1, h2, h3, h4, h5]

lemma flushF_snd {p : Pending} (hp : pendingOK p) : (flushF p).2 = Pending.none := by
  cases p with
  | none => rfl
  | numbered its =>
    have h : its.isEmpty = false := List.isEmpty_eq_false.mpr hp
    simp [flushF, h]
  | bullet its =>
    have h : its.isEmpty = false := List.isEmpty_eq_false.mpr hp
    simp [flushF, h]

lemma flushF_fst_numbered {its : List (Nat × List Char)} (h : its ≠ []) :
    (flushF (Pending.numbered its)).1 = [Block.numbered its] := by
  have h2 : its.isEmpty = false := List.isEmpty_eq_false.mpr h
  simp [flushF, h2]

lemma flushF_fst_bullet {its : List (List Char)} (h : its ≠ []) :
    (flushF (Pending.bullet its)).1 = [Block.bullet its] := by
  have h2 : its.isEmpty = false := List.isEmpty_eq_false.mpr h
  simp [flushF, h2]

lemma isNumLine_true {l : List Char} (h : classify l = Kind.numbered) :
    isNumLine l = true := by
  simp [isNumLine, h]

lemma isNumLine_false {l : List Char} (h : classify l ≠ Kind.numbered) :
    isNumLine l = false := by
  unfold isNumLine
  split <;> simp_all

lemma isBulLine_true {l : List Char} (h : classify l = Kind.bullet) :
    isBulLine l = true := by
  simp [isBulLine, h]

lemma isBulLine_false {l : List Char} (h : classify l ≠ Kind.bullet) :
    isBulLine l = false := by
  unfold isBulLine
  split <;> simp_all


lemma blocksSpec_nil : blocksSpec [] = [] := by
  simp [blocksSpec]

lemma blocksSpec_cons_blank {l : List Char} {rest : List (List Char)}
    (h : classify l = Kind.blank) : blocksSpec (l :: rest) = blocksSpec rest := by
  simp [blocksSpec, h]

lemma blocksSpec_cons_header {l : List Char} {rest : List (List Char)}
    (h : classify l = Kind.header) :
    blocksSpec (l :: rest) = Block.header (stripStars (trim l)) :: blocksSpec rest := by
  simp [blocksSpec, h]

lemma blocksSpec_cons_numbered {l : List Char} {rest : List (List Char)}
    (h : classify l = Kind.numbered) :
    blocksSpec (l :: rest) =
      Block.numbered ((l :: rest.takeWhile isNumLine).map numItemOf) ::
        blocksSpec (rest.dropWhile isNumLine) := by
  simp [blocksSpec, h]

lemma blocksSpec_cons_bullet {l : List Char} {rest : List (List Char)}
    (h : classify l = Kind.bullet) :
    blocksSpec (l :: rest) =
      Block.bullet ((l :: rest.takeWhile isBulLine).map bulItemOf) ::
        blocksSpec (rest.dropWhile isBulLine) := by
  simp [blocksSpec, h]

lemma blocksSpec_cons_code {l : List Char} {rest : List (List Char)}
    (h : classify l = Kind.code) :
    blocksSpec (l :: rest) = Block.code l :: blocksSpec rest := by
  simp [blocksSpec, h]

lemma blocksSpec_cons_para {l : List Char} {rest : List (List Char)}
    (h : classify l = Kind.para) :
    blocksSpec (l :: rest) = Block.para (trim l) :: blocksSpec rest := by
  simp [blocksSpec, h]

/-- For a line that belongs to no list run, gluing a pending group onto
it flushes the group first: the glued output is the flushed group
followed by the structural grouping of the whole remaining line list. -/
lemma glue_flush {p : Pending} {l : List Char} {rest : List (List Char)}
    (hp : pendingOK p) (hn : classify l ≠ Kind.numbered) (hb : classify l ≠ Kind.bullet) :
    glue p (l :: rest) = (flushF p).1 ++ blocksSpec (l :: rest) := by
  cases p with
  | none => simp [glue, flushF]
  | numbered its =>
    rw [glue, List.takeWhile_cons, List.dropWhile_cons, isNumLine_false hn,
      flushF_fst_numbered hp]
    simp
  | bullet its =>
    rw [glue, List.takeWhile_cons, List.dropWhile_cons, isBulLine_false hb,
      flushF_fst_bullet hp]
    simp


/-- Core refinement: running the scanner from any well-formed state over
any line list and flushing equals the already emitted blocks followed by
the glued structural grouping. -/
lemma finalize_foldl (lines : List (List Char)) :
    ∀ (out : List Block) (p : Pending), pendingOK p →
      finalize (List.foldl step ⟨out, p⟩ lines) = out ++ glue p lines := by
  induction lines with
  | nil =>
    intro out p hp
    cases p with
    | none => simp [finalize, glue, blocksSpec_nil, flushF]
    | numbered its =>
      simp [finalize, glue, blocksSpec_nil, flushF_fst_numbered hp,
        flushF_snd hp]
    | bullet its =>
      simp [finalize, glue, blocksSpec_nil, flushF_fst_bullet hp,
        flushF_snd hp]
  | cons l rest ih =>
    intro out p hp
    rw [List.foldl_cons]
    cases hcl : classify l with
    | blank =>
      rw [step_blank ⟨out, p⟩ hcl, flushF_snd hp, ih _ Pending.none trivial,
        glue_flush hp (by simp [hcl]) (by simp [hcl]), blocksSpec_cons_blank hcl]
      simp [glue]
    | header =>
      rw [step_header ⟨out, p⟩ hcl, flushF_snd hp, ih _ Pending.none trivial,
        glue_flush hp (by simp [hcl]) (by simp [hcl]), blocksSpec_cons_header hcl]
      simp [glue]
    | code =>
      rw [step_code ⟨out, p⟩ hcl, flushF_snd hp, ih _ Pending.none trivial,
        glue_flush hp (by simp [hcl]) (by simp [hcl]), blocksSpec_cons_code hcl]
      simp [glue]
    | para =>
      rw [step_para ⟨out, p⟩ hcl, flushF_snd hp, ih _ Pending.none trivial,
        glue_flush hp (by simp [hcl]) (by simp [hcl]), blocksSpec_cons_para hcl]
      simp [glue]
    | numbered =>
      cases p with
      | numbered its =>
        rw [step_num_cont hcl, ih _ (Pending.numbered (its ++ [numItemOf l])) (by simp [pendingOK])]
        rw [glue, glue, List.takeWhile_cons, List.dropWhile_cons, isNumLine_true hcl]
        simp
      | none =>
        rw [step_num_fresh hcl, ih _ (Pending.numbered [numItemOf l]) (by simp [pendingOK])]
        rw [glue, glue, blocksSpec_cons_numbered hcl]
        simp
      | bullet its =>
        rw [step_num_after_bul hcl, flushF_fst_bullet hp,
          ih _ (Pending.numbered [numItemOf l]) (by simp [pendingOK])]
        rw [glue, glue, List.takeWhile_cons, List.dropWhile_cons,
          isBulLine_false (by simp [hcl])]
        simp [blocksSpec_cons_numbered hcl, flushF_fst_bullet hp]
    | bullet =>
      cases p with
      | bullet its =>
        rw [step_bul_cont hcl, ih _ (Pending.bullet (its ++ [bulItemOf l])) (by simp [pendingOK])]
        rw [glue, glue, List.takeWhile_cons, List.dropWhile_cons, isBulLine_true hcl]
        simp
      | none =>
        rw [step_bul_fresh hcl, ih _ (Pending.bullet [bulItemOf l]) (by simp [pendingOK])]
        rw [glue, glue, blocksSpec_cons_bullet hcl]
        simp
      | numbered its =>
        rw [step_bul_after_num hcl, flushF_fst_numbered hp,
          ih _ (Pending.bullet [bulItemOf l]) (by simp [pendingOK])]
        rw [glue, glue, List.takeWhile_cons, List.dropWhile_cons,
          isNumLine_false (by simp [hcl])]
        simp [blocksSpec_cons_bullet hcl, flushF_fst_numbered hp]

/-- `formatText` computes exactly the structural grouping of the lines. -/
lemma formatText_eq_blocksSpec (s : String) :
    formatText s = blocksSpec (splitLines s.data) := by
  by_cases h : s.data.isEmpty
  · have h2 : s.data = [] := List.isEmpty_iff.mp h
    simp [formatText, h, h2, splitLines, blocksSpec_cons_blank, classify, trim,
      blocksSpec_nil]
  · have h2 : formatText s = finalize ((splitLines s.data).foldl step ⟨[], Pending.none⟩) := by
      simp [formatText, h, finalize]
    rw [h2, finalize_foldl _ [] Pending.none trivial]
    simp [glue]


lemma isNumLine_elim {l : List Char} (h : isNumLine l = true) :
    classify l = Kind.numbered := by
  unfold isNumLine at h
  split at h <;> simp_all

lemma isBulLine_elim {l : List Char} (h : isBulLine l = true) :
    classify l = Kind.bullet := by
  unfold isBulLine at h
  split at h <;> simp_all

lemma nonBlank_sublist (l : List Char) : List.Sublist (nonBlank l) l :=
  List.filter_sublist _

lemma trim_sublist (l : List Char) : List.Sublist (trim l) l := by
  have h2 : List.Sublist ((l.dropWhile isWS).reverse.dropWhile isWS) (l.dropWhile isWS).reverse :=
    List.dropWhile_sublist _
  have h3 := h2.reverse
  rw [List.reverse_reverse] at h3
  exact h3.trans (List.dropWhile_sublist _)

lemma stripStars_sublist (l : List Char) : List.Sublist (stripStars l) l := by
  induction l using stripStars.induct with
  | case1 rest ih =>
    rw [stripStars]
    exact (ih.trans (List.sublist_cons_self _ _)).trans (List.sublist_cons_self _ _)
  | case2 c rest hne ih =>
    rw [stripStars]
    exact ih.cons₂ c
    exact hne
  | case3 =>
    simp [stripStars]

lemma numMatch_some_decomp {l : List Char} {n : Nat} {c : List Char}
    (h : numMatch l = Option.some (n, c)) :
    ∃ r, l = l.takeWhile isDigitC ++ '.' :: r ∧ l.takeWhile isDigitC ≠ [] ∧
      n = digitsVal (l.takeWhile isDigitC) ∧
      c = (r.dropWhile isWS).takeWhile (fun x => !(isLineTerm x)) := by
  simp only [numMatch] at h
  split_ifs at h with hd
  split at h
  case _ r heq =>
    obtain ⟨hn, hc⟩ : digitsVal (l.takeWhile isDigitC) = n ∧
        (r.dropWhile isWS).takeWhile (fun x => !(isLineTerm x)) = c := by
      injection h with h2
      exact ⟨congrArg Prod.fst h2, congrArg Prod.snd h2⟩
    refine ⟨r, ?_, by simpa using hd, hn.symm, hc.symm⟩
    conv_lhs => rw [← List.takeWhile_append_dropWhile isDigitC l]
    rw [heq]
  case _ => exact absurd h (by simp)

lemma scrubLine_sublist (l : List Char) : List.Sublist (scrubLine l) l := by
  unfold scrubLine
  cases hcl : classify l with
  | blank => simp
  | header =>
    exact (nonBlank_sublist _).trans ((stripStars_sublist (trim l)).trans (trim_sublist l))
  | numbered =>
    have h4 : List.Sublist ((((trim l).dropWhile isDigitC).drop 1).dropWhile isWS) l :=
      (List.dropWhile_sublist _).trans ((List.drop_sublist _ _).trans
        ((List.dropWhile_sublist _).trans (trim_sublist l)))
    exact (nonBlank_sublist _).trans h4
  | bullet =>
    have h4 : List.Sublist (bulItemOf l) (trim l) := by
      unfold bulItemOf bulletContent
      exact (trim_sublist _).trans (List.drop_sublist _ _)
    exact (nonBlank_sublist _).trans (h4.trans (trim_sublist l))
  | code => exact nonBlank_sublist l
  | para => exact (nonBlank_sublist _).trans (trim_sublist l)

lemma splitLines_ne_nil (l : List Char) : splitLines l ≠ [] := by
  cases l with
  | nil => simp [splitLines]
  | cons c rest =>
    unfold splitLines
    by_cases hc : c = '\n'
    · simp [hc]
    · cases h : splitLines rest <;> simp [hc, h]

lemma joinNL_splitLines (l : List Char) : joinNL (splitLines l) = l := by
  induction l with
  | nil => rfl
  | cons c rest ih =>
    obtain ⟨h0, t0, hsp⟩ : ∃ h0 t0, splitLines rest = h0 :: t0 := by
      cases hs : splitLines rest with
      | nil => exact absurd hs (splitLines_ne_nil rest)
      | cons a b => exact ⟨a, b, rfl⟩
    rw [hsp] at ih
    unfold splitLines
    by_cases hc : c = '\n'
    · rw [if_pos hc, hsp]
      rw [joinNL]
      simp [ih, hc]
    · rw [if_neg hc, hsp]
      cases t0 with
      | nil => simpa [joinNL] using ih
      | cons y t2 =>
        rw [joinNL] at ih ⊢
        simp [← ih]

lemma scrub_flatten_sublist (ls : List (List Char)) :
    List.Sublist ((ls.map scrubLine).flatten) (joinNL ls) := by
  induction ls with
  | nil => simp [joinNL]
  | cons x rest ih =>
    cases rest with
    | nil => simpa [joinNL] using scrubLine_sublist x
    | cons y t =>
      rw [joinNL, List.map_cons, List.flatten_cons]
      exact (scrubLine_sublist x).append (ih.trans (List.sublist_cons_self _ _))


lemma nonBlank_append (a b : List Char) : nonBlank (a ++ b) = nonBlank a ++ nonBlank b :=
  List.filter_append _ _

lemma nonBlank_flatten (xs : List (List Char)) :
    nonBlank xs.flatten = (xs.map nonBlank).flatten :=
  List.filter_flatten _ _

/-- On a line free of line terminators, the regex-dot truncation of the
numbered-item content is inert: the stored content is the full
remainder after the digit prefix, the period, and the whitespace. -/
lemma numItemOf_content_of_clean {x : List Char}
    (hx : ∀ c ∈ x, isLineTerm c = false) (h : classify x = Kind.numbered) :
    (numItemOf x).2 = (((trim x).dropWhile isDigitC).drop 1).dropWhile isWS := by
  obtain ⟨_, _, h3⟩ := classify_numbered_elim h
  have h3b : numMatch (trim x) = Option.some ((numItemOf x).1, (numItemOf x).2) := by
    rw [h3]
  obtain ⟨r, hl, _, _, hc⟩ := numMatch_some_decomp h3b
  have hdw : (trim x).dropWhile isDigitC = '.' :: r :=
    List.append_cancel_left ((List.takeWhile_append_dropWhile isDigitC (trim x)).trans hl)
  have hclean : ∀ c ∈ r.dropWhile isWS, (fun y => !(isLineTerm y)) c = true := by
    intro c hcm
    have hm1 : c ∈ r := (List.dropWhile_sublist _).subset hcm
    have hm2 : c ∈ trim x := by
      rw [hl]
      exact List.mem_append_right _ (List.mem_cons_of_mem _ hm1)
    simp [hx c ((trim_sublist x).subset hm2)]
  rw [hc, hdw, List.takeWhile_eq_self_iff.mpr hclean]
  simp

/-- Over the structural grouping of lines free of line terminators, the
non-blank visible output equals the per-line scrubbed input,
concatenated in line order. -/
lemma nonBlank_vis_blocksSpec (lines : List (List Char)) :
    (∀ l ∈ lines, ∀ c ∈ l, isLineTerm c = false) →
    nonBlank (((blocksSpec lines).map visibleOfBlock).flatten) =
      (lines.map scrubLine).flatten := by
  induction lines using blocksSpec.induct with
  | case1 =>
    intro _
    simp [blocksSpec_nil, nonBlank]
  | case2 l t h ih =>
    intro hcl
    have ih2 := ih fun l2 hl2 => hcl l2 (List.mem_cons_of_mem _ hl2)
    rw [blocksSpec_cons_blank h]
    simp [scrubLine, h, ih2]
  | case3 l t h ih =>
    intro hcl
    have ih2 := ih fun l2 hl2 => hcl l2 (List.mem_cons_of_mem _ hl2)
    rw [blocksSpec_cons_header h]
    simp only [List.map_cons, List.flatten_cons, visibleOfBlock, nonBlank_append, ih2]
    simp [scrubLine, h]
  | case4 l t h ih =>
    intro hcl
    have ih2 := ih fun l2 hl2 => hcl l2
      (List.mem_cons_of_mem _ ((List.dropWhile_sublist _).subset hl2))
    rw [blocksSpec_cons_numbered h]
    have hsplit : t.takeWhile isNumLine ++ t.dropWhile isNumLine = t :=
      List.takeWhile_append_dropWhile _ _
    have hcong : List.map (nonBlank ∘ Prod.snd ∘ numItemOf) (t.takeWhile isNumLine) =
        List.map scrubLine (t.takeWhile isNumLine) := by
      refine List.map_congr_left ?_
      intro x hx
      have hx2 := isNumLine_elim (List.mem_takeWhile_imp hx)
      have hxc : ∀ c ∈ x, isLineTerm c = false :=
        hcl x (List.mem_cons_of_mem _ ((List.takeWhile_sublist _).subset hx))
      simp [scrubLine, hx2, Function.comp, numItemOf_content_of_clean hxc hx2]
    conv_rhs => rw [← hsplit]
    simp only [List.map_cons, List.map_append, List.flatten_cons, List.flatten_append,
      visibleOfBlock, List.map_map, nonBlank_append, nonBlank_flatten, ih2]
    have hlc : ∀ c ∈ l, isLineTerm c = false := hcl l (List.mem_cons_self _ _)
    rw [hcong, show scrubLine l = nonBlank (numItemOf l).2 from by
      simp [scrubLine, h, numItemOf_content_of_clean hlc h], List.append_assoc]
  | case5 l t h ih =>
    intro hcl
    have ih2 := ih fun l2 hl2 => hcl l2
      (List.mem_cons_of_mem _ ((List.dropWhile_sublist _).subset hl2))
    rw [blocksSpec_cons_bullet h]
    have hsplit : t.takeWhile isBulLine ++ t.dropWhile isBulLine = t :=
      List.takeWhile_append_dropWhile _ _
    have hcong : List.map (nonBlank ∘ bulItemOf) (t.takeWhile isBulLine) =
        List.map scrubLine (t.takeWhile isBulLine) := by
      refine List.map_congr_left ?_
      intro x hx
      have hx2 := isBulLine_elim (List.mem_takeWhile_imp hx)
      simp [scrubLine, hx2, Function.comp]
    conv_rhs => rw [← hsplit]
    simp only [List.map_cons, List.map_append, List.flatten_cons, List.flatten_append,
      visibleOfBlock, List.map_map, nonBlank_append, nonBlank_flatten, ih2]
    rw [hcong, show scrubLine l = nonBlank (bulItemOf l) from by simp [scrubLine, h],
      List.append_assoc]
  | case6 l t h ih =>
    intro hcl
    have ih2 := ih fun l2 hl2 => hcl l2 (List.mem_cons_of_mem _ hl2)
    rw [blocksSpec_cons_code h]
    simp only [List.map_cons, List.flatten_cons, visibleOfBlock, nonBlank_append, ih2]
    simp [scrubLine, h]
  | case7 l t h ih =>
    intro hcl
    have ih2 := ih fun l2 hl2 => hcl l2 (List.mem_cons_of_mem _ hl2)
    rw [blocksSpec_cons_para h]
    simp only [List.map_cons, List.flatten_cons, visibleOfBlock, nonBlank_append, ih2]
    simp [scrubLine, h]

/-- Every character of a line produced by `splitLines` comes from the
input and is not a line feed. -/
lemma splitLines_line_chars {x : List Char} :
    ∀ l ∈ splitLines x, ∀ c ∈ l, c ∈ x ∧ ¬(c = '\n') := by
  induction x with
  | nil =>
    intro l hl c hc
    simp [splitLines] at hl
    subst hl
    simp at hc
  | cons a rest ih =>
    intro l hl c hc
    unfold splitLines at hl
    by_cases ha : a = '\n'
    · rw [if_pos ha] at hl
      rcases List.mem_cons.mp hl with h1 | h1
      · subst h1
        simp at hc
      · obtain ⟨hm, hn⟩ := ih l h1 c hc
        exact ⟨List.mem_cons_of_mem _ hm, hn⟩
    · rw [if_neg ha] at hl
      cases hs : splitLines rest with
      | nil => exact absurd hs (splitLines_ne_nil rest)
      | cons h0 t0 =>
        rw [hs] at hl
        rcases List.mem_cons.mp hl with h1 | h1
        · subst h1
          rcases List.mem_cons.mp hc with h2 | h2
          · subst h2
            exact ⟨List.mem_cons_self _ _, ha⟩
          · obtain ⟨hm, hn⟩ := ih h0 (by rw [hs]; exact List.mem_cons_self _ _) c h2
            exact ⟨List.mem_cons_of_mem _ hm, hn⟩
        · obtain ⟨hm, hn⟩ := ih l (by rw [hs]; exact List.mem_cons_of_mem _ h1) c hc
          exact ⟨List.mem_cons_of_mem _ hm, hn⟩


lemma lastSpaceIdx_of_noSpace {l : List Char} (h : NoSpace l) : lastSpaceIdx l = -1 := by
  induction l with
  | nil => rfl
  | cons c rest ih =>
    have hrest : NoSpace rest := by
      intro j hj
      have := h (j + 1) (by simpa using Nat.succ_lt_succ hj)
      simpa using this
    have hc : ¬(c = ' ') := by
      have := h 0 (by simp)
      simpa using this
    simp [lastSpaceIdx, ih hrest, hc]

lemma lastSpaceIdx_of_isLastSpace {l : List Char} {i : Nat} (h : IsLastSpace l i) :
    lastSpaceIdx l = (i : Int) := by
  induction l generalizing i with
  | nil => exact absurd h.1 (by simp)
  | cons c rest ih =>
    obtain ⟨hlen, hi, hafter⟩ := h
    cases i with
    | zero =>
      have hc : c = ' ' := by simpa using hi
      have hrest : NoSpace rest := by
        intro j hj
        have := hafter (j + 1) (by simpa using Nat.succ_lt_succ hj) (Nat.succ_pos j)
        simpa using this
      simp [lastSpaceIdx, lastSpaceIdx_of_noSpace hrest, hc]
    | succ k =>
      have hrest : IsLastSpace rest k := by
        refine ⟨by simpa using hlen, by simpa using hi, ?_⟩
        intro j hj hkj
        have := hafter (j + 1) (by simpa using Nat.succ_lt_succ hj) (Nat.succ_lt_succ hkj)
        simpa using this
      have hr := ih hrest
      simp [lastSpaceIdx, hr]

lemma numMatch_isSome_facts {t : List Char} (h : (numMatch t).isSome = true) :
    t.isEmpty = false ∧ headerMatch t = false := by
  obtain ⟨⟨n, c⟩, hnc⟩ := Option.isSome_iff_exists.mp h
  obtain ⟨r, hl, hne, _, _⟩ := numMatch_some_decomp hnc
  obtain ⟨d, ds2, hds⟩ : ∃ d ds2, t.takeWhile isDigitC = d :: ds2 := by
    cases hd : t.takeWhile isDigitC with
    | nil => exact absurd hd hne
    | cons a b => exact ⟨a, b, rfl⟩
  have hdig : isDigitC d = true := List.mem_takeWhile_imp (hds ▸ List.mem_cons_self d ds2)
  have ht : t = d :: (ds2 ++ '.' :: r) := by
    conv_lhs => rw [hl, hds]
    exact List.cons_append d ds2 ('.' :: r)
  have hd2 : ¬(d = '*') := by
    intro he
    rw [he] at hdig
    exact absurd hdig (by decide)
  constructor
  · rw [ht]
    rfl
  · rw [ht]
    simp [headerMatch, List.take_succ_cons, hd2]

lemma takeWhile_digits_append (ds r : List Char) (h : ds.all isDigitC = true) :
    (ds ++ '.' :: r).takeWhile isDigitC = ds ∧
      (ds ++ '.' :: r).dropWhile isDigitC = '.' :: r := by
  induction ds with
  | nil =>
    have hdot : isDigitC '.' = false := by decide
    constructor <;> simp [List.takeWhile_cons, List.dropWhile_cons, hdot]
  | cons d ds2 ih =>
    have hall := h
    simp [List.all_cons] at hall
    have hd : isDigitC d = true := hall.1
    have hrest : ds2.all isDigitC = true := List.all_eq_true.mpr hall.2
    constructor <;>
      simp [List.takeWhile_cons, List.dropWhile_cons, hd, (ih hrest).1, (ih hrest).2]

lemma numMatch_eq_of_digits (ds r : List Char) (h1 : ds ≠ []) (h2 : ds.all isDigitC = true) :
    numMatch (ds ++ '.' :: r) =
      Option.some (digitsVal ds, (r.dropWhile isWS).takeWhile (fun x => !(isLineTerm x))) := by
  obtain ⟨htake, hdrop⟩ := takeWhile_digits_append ds r h2
  have hne : (List.takeWhile isDigitC (ds ++ '.' :: r)).isEmpty = false := by
    rw [htake]
    exact List.isEmpty_eq_false.mpr h1
  simp [numMatch, htake, hdrop, hne, h1]

lemma headerMatch_iff (t : List Char) : headerMatch t = true ↔
    4 ≤ t.length ∧ t.take 2 = ['*', '*'] ∧ t.reverse.take 2 = ['*', '*'] ∧
      ∀ c ∈ (t.drop 2).take (t.length - 4), isLineTerm c = false := by
  simp [headerMatch, and_assoc]


/-- C1 counterexample: in `"1. a\rb"` the character `b` is non-blank
and is no marker, yet the emitted numbered item stores only `"a"` — the
regex capture `(.*)` stops at the embedded carriage return — so the
visible output does not preserve every non-blank, non-marker character.
The scrubbed line (its non-blank, non-marker characters) is `"ab"`,
while the visible output retains only `"a"`. -/
theorem c1_carriage_return_cex :
    formatText "1. a\rb" = [Block.numbered [(1, "a".data)]] ∧
      scrub "1. a\rb" = "ab".data ∧
      nonBlank (visibleConcat "1. a\rb") = "a".data := by
  decide

/-- C1 amended: for every input string containing no line-terminator
characters other than the line feed (no CR, U+2028, U+2029), the
concatenated visible content of the emitted blocks (ignoring the
re-rendered number and bullet markers) preserves every non-blank,
non-marker character of the input in its original order: stripped of
blanks, the visible output equals exactly the scrubbed input, and the
scrubbed input is a subsequence of the input, so its characters appear
in their original order. -/
theorem c1_visible_content_preservation (s : String)
    (hs : ∀ c ∈ s.data, isHardTerm c = false) :
    nonBlank (visibleConcat s) = scrub s ∧ List.Sublist (scrub s) s.data := by
  constructor
  · rw [visibleConcat, formatText_eq_blocksSpec]
    refine nonBlank_vis_blocksSpec _ ?_
    intro l hl c hc
    obtain ⟨hmem, hnn⟩ := splitLines_line_chars l hl c hc
    have hhard := hs c hmem
    simp [isHardTerm] at hhard
    simp [isLineTerm, hnn]
    tauto
  · have h := scrub_flatten_sublist (splitLines s.data)
    rw [joinNL_splitLines] at h
    rw [scrub]
    exact h

/-- Witness for the amended C1 on a terminator-free input exercising a
header, a numbered item, a bulleted item, and a paragraph. -/
theorem c1_visible_content_preservation_witness :
    (∀ c ∈ ("**T**\n1. ab\n• c\nplain".data), isHardTerm c = false) ∧
      (nonBlank (visibleConcat "**T**\n1. ab\n• c\nplain") =
          scrub "**T**\n1. ab\n• c\nplain" ∧
        List.Sublist (scrub "**T**\n1. ab\n• c\nplain")
          ("**T**\n1. ab\n• c\nplain".data)) :=
  ⟨by decide, c1_visible_content_preservation _ (by decide)⟩

/-- C2 counterexample: the claim requires at least one character between
the marker pairs, so `"****"` would not be a header, and the header
content would strip only the outer marker pairs, so `"**a**b**"` would
yield `"a**b"`.  The code classifies `"****"` as a header (with empty
content) and strips every `**` occurrence, yielding `"ab"`. -/
theorem c2_header_empty_interior_cex :
    formatText "****" = [Block.header []] ∧
      formatText "**a**b**" = [Block.header "ab".data] := by
  decide

/-- C2 amended: a trimmed line is a header iff it starts with `**`,
ends with `**`, has length at least four (an empty interior such as
`"****"` is allowed), and its interior contains no line terminator (the
regex `.` cannot cross one); the emitted header block's content is the
trimmed line with every occurrence of `**` removed. -/
theorem c2_header_rule_amended (st : FmtState) (l : List Char) :
    (classify l = Kind.header ↔
      4 ≤ (trim l).length ∧ (trim l).take 2 = ['*', '*'] ∧
        (trim l).reverse.take 2 = ['*', '*'] ∧
        ∀ c ∈ ((trim l).drop 2).take ((trim l).length - 4), isLineTerm c = false) ∧
    (classify l = Kind.header →
      step st l = ⟨st.out ++ (flushF st.pending).1 ++ [Block.header (stripStars (trim l))],
        (flushF st.pending).2⟩) := by
  constructor
  · constructor
    · intro h
      exact (headerMatch_iff _).mp (classify_header_elim h).2
    · intro h
      have hm : headerMatch (trim l) = true := (headerMatch_iff _).mpr h
      have hne : (trim l).isEmpty = false := by
        refine List.isEmpty_eq_false.mpr ?_
        intro he
        rw [he] at h
        simp at h
      simp [classify, hne, hm]
  · exact step_header st

/-- Witness for the amended C2 rule at the spec's example `"**Title**"`. -/
theorem c2_header_rule_amended_witness :
    classify "**Title**".data = Kind.header ∧
      step ⟨[], Pending.none⟩ "**Title**".data =
        ⟨[Block.header "Title".data], Pending.none⟩ := by
  have h1 : classify "**Title**".data = Kind.header :=
    (c2_header_rule_amended ⟨[], Pending.none⟩ "**Title**".data).1.mpr (by decide)
  have h2 := (c2_header_rule_amended ⟨[], Pending.none⟩ "**Title**".data).2 h1
  refine ⟨h1, ?_⟩
  rw [h2]
  decide

/-- C3: the classification chain is exactly blank, header, numbered,
bulleted, code, paragraph, in this order; any line matching the
numbered pattern is classified as numbered no matter what comes later
in the chain, and in particular `"1. const x"` (which also satisfies
the code-line test via `const `) is a numbered item, not a code line. -/
theorem c3_classification_precedence (l : List Char) :
    (classify l =
      if (trim l).isEmpty then Kind.blank
      else if headerMatch (trim l) then Kind.header
      else if (numMatch (trim l)).isSome then Kind.numbered
      else if bulletMatch (trim l) then Kind.bullet
      else if codeMatch l (trim l) then Kind.code
      else Kind.para) ∧
    ((numMatch (trim l)).isSome = true → classify l = Kind.numbered) ∧
    (classify "1. const x".data = Kind.numbered ∧
      codeMatch "1. const x".data (trim "1. const x".data) = true) := by
  refine ⟨rfl, ?_, by decide, by decide⟩
  intro h
  obtain ⟨he, hh⟩ := numMatch_isSome_facts h
  simp [classify, he, hh, h]

/-- Witness for C3 at the line `"1. const x"`. -/
theorem c3_classification_precedence_witness :
    (numMatch (trim "1. const x".data)).isSome = true ∧
      classify "1. const x".data = Kind.numbered := by
  refine ⟨by decide, ?_⟩
  exact (c3_classification_precedence "1. const x".data).2.1 (by decide)

/-- C4: the scanner's output is exactly the structural grouping of the
lines: blocks appear in the order of their first triggering line, every
maximal run of consecutive same-kind list lines becomes one group
block, and a blank line or kind change flushes the pending group; in
particular `"1. a\n• b"` yields a numbered group then a separate
bulleted group. -/
theorem c4_grouping_refinement :
    (∀ s : String, formatText s = blocksSpec (splitLines s.data)) ∧
      formatText "1. a\n• b" =
        [Block.numbered [(1, "a".data)], Block.bullet ["b".data]] :=
  ⟨formatText_eq_blocksSpec, by decide⟩

/-- C5 counterexample: the claim says the stored content is the
remainder after the period and optional whitespace, but for
`"1. a\rb"` that remainder is `"a\rb"` while the code stores `"a"`:
the regex capture `(.*)` stops at the carriage return. -/
theorem c5_content_truncation_cex :
    ((("1. a\rb".data).dropWhile isDigitC).drop 1).dropWhile isWS = "a\rb".data ∧
      numMatch "1. a\rb".data = Option.some (1, "a".data) ∧
      formatText "1. a\rb" = [Block.numbered [(1, "a".data)]] ∧
      ¬("a".data = "a\rb".data) := by
  decide

/-- C5 amended: a line is classified as a numbered item exactly when
its trimmed form starts with one or more digits followed by a period;
the item carries the decimal value of the digit prefix and the
remainder after the period and optional whitespace truncated at the
first line terminator (the regex `.` does not match CR, U+2028 or
U+2029; on lines without embedded line terminators this is the full
remainder); a lone `"."` is not numbered; and `"1. foo\n2. bar"`
yields one numbered group with the two items. -/
theorem c5_numbered_classification (l : List Char) :
    (classify l = Kind.numbered ↔
      ∃ ds r, ds ≠ [] ∧ ds.all isDigitC = true ∧ trim l = ds ++ '.' :: r) ∧
    (∀ ds r, ds ≠ [] → ds.all isDigitC = true →
      numMatch (ds ++ '.' :: r) =
        Option.some (digitsVal ds,
          (r.dropWhile isWS).takeWhile (fun x => !(isLineTerm x)))) ∧
    classify ['.'] ≠ Kind.numbered ∧
    formatText "1. foo\n2. bar" =
      [Block.numbered [(1, "foo".data), (2, "bar".data)]] := by
  refine ⟨⟨?_, ?_⟩, fun ds r h1 h2 => numMatch_eq_of_digits ds r h1 h2, by decide, by decide⟩
  · intro h
    obtain ⟨_, _, h3⟩ := classify_numbered_elim h
    have h3b : numMatch (trim l) = Option.some ((numItemOf l).1, (numItemOf l).2) := by
      rw [h3]
    obtain ⟨r, hl, hne, _, _⟩ := numMatch_some_decomp h3b
    refine ⟨(trim l).takeWhile isDigitC, r, hne, ?_, hl⟩
    exact List.all_eq_true.mpr fun x hx => List.mem_takeWhile_imp hx
  · rintro ⟨ds, r, h1, h2, h3⟩
    have hm : (numMatch (trim l)).isSome = true := by
      rw [h3, numMatch_eq_of_digits ds r h1 h2]
      rfl
    obtain ⟨he, hh⟩ := numMatch_isSome_facts hm
    simp [classify, he, hh, hm]

/-- Witness for C5 at the line `"1. foo"`. -/
theorem c5_numbered_classification_witness :
    classify "1. foo".data = Kind.numbered ∧
      numMatch (['1'] ++ '.' :: " foo".data) = Option.some (1, "foo".data) := by
  constructor
  · exact (c5_numbered_classification "1. foo".data).1.mpr
      ⟨['1'], " foo".data, by decide, by decide, by decide⟩
  · have h := (c5_numbered_classification []).2.1 ['1'] " foo".data (by decide) (by decide)
    rw [h]
    decide

/-- C6: a line whose untrimmed form starts with four spaces and that is
not blank, header, numbered, or bulleted is classified as a code line,
and the scanner emits exactly one code block whose content is the
original untrimmed line, whitespace intact. -/
theorem c6_indented_code_line (st : FmtState) (l : List Char)
    (h4 : l.take 4 = [' ', ' ', ' ', ' '])
    (hb : classify l ≠ Kind.blank) (hh : classify l ≠ Kind.header)
    (hn : classify l ≠ Kind.numbered) (hbl : classify l ≠ Kind.bullet) :
    classify l = Kind.code ∧
      step st l = ⟨st.out ++ (flushF st.pending).1 ++ [Block.code l],
        (flushF st.pending).2⟩ := by
  have h1 : (trim l).isEmpty = false := by
    cases hx : (trim l).isEmpty
    · rfl
    · exact absurd (by simp [classify, hx]) hb
  have h2 : headerMatch (trim l) = false := by
    cases hx : headerMatch (trim l)
    · rfl
    · exact absurd (by simp [classify, h1, hx]) hh
  have h3 : (numMatch (trim l)).isSome = false := by
    cases hx : (numMatch (trim l)).isSome
    · rfl
    · exact absurd (by simp [classify, h1, h2, hx]) hn
  have h5 : bulletMatch (trim l) = false := by
    cases hx : bulletMatch (trim l)
    · rfl
    · exact absurd (by simp [classify, h1, h2, h3, hx]) hbl
  have hc : codeMatch l (trim l) = true := by
    simp [codeMatch, h4]
  have hcl : classify l = Kind.code := by
    simp [classify, h1, h2, h3, h5, hc]
  exact ⟨hcl, step_code st hcl⟩

/-- Witness for C6 at the spec's example `"    x = 1"`. -/
theorem c6_indented_code_line_witness :
    classify "    x = 1".data = Kind.code ∧
      step ⟨[], Pending.none⟩ "    x = 1".data =
        ⟨[Block.code "    x = 1".data], Pending.none⟩ := by
  obtain ⟨h1, h2⟩ := c6_indented_code_line ⟨[], Pending.none⟩ "    x = 1".data
    (by decide) (by decide) (by decide) (by decide) (by decide)
  refine ⟨h1, ?_⟩
  rw [h2]
  decide

/-- C7: text within the budget is returned unchanged with no ellipsis;
longer text is truncated to the first `b` characters, cut at the index
of the last space of that prefix when that index exceeds `0.8 * b`
(embedded as the exact comparison `4 * b < 5 * i`), otherwise cut
exactly at the budget, and the ellipsis marker is appended in both
truncated cases. -/
theorem c7_preview_truncation (t : List Char) (b : Nat) :
    (t.length ≤ b → getPreviewText t b = t) ∧
    (b < t.length → ∀ i : Nat, IsLastSpace (t.take b) i →
      ((4 * (b : Int) < 5 * (i : Int) →
          getPreviewText t b = (t.take b).take i ++ "...".data) ∧
       (5 * (i : Int) ≤ 4 * (b : Int) →
          getPreviewText t b = t.take b ++ "...".data))) ∧
    (b < t.length → NoSpace (t.take b) →
      getPreviewText t b = t.take b ++ "...".data) := by
  refine ⟨?_, ?_, ?_⟩
  · intro h
    simp [getPreviewText, h]
  · intro h i hi
    have hlsi := lastSpaceIdx_of_isLastSpace hi
    have hnotle : ¬(t.length ≤ b) := by omega
    constructor
    · intro hgt
      simp [getPreviewText, hnotle, hlsi, hgt]
    · intro hle
      have hno : ¬(4 * (b : Int) < 5 * (i : Int)) := by omega
      simp [getPreviewText, hnotle, hlsi, hno]
  · intro h hns
    have hlsi := lastSpaceIdx_of_noSpace hns
    have hnotle : ¬(t.length ≤ b) := by omega
    simp [getPreviewText, hnotle, hlsi]
    intro hx
    exact absurd hx (by omega)

/-- Witness for C7: budget 10 with no space in the prefix cuts at the
budget; a last space at index 9 (beyond `0.8 * 10`) cuts at the space;
text within the budget is unchanged. -/
theorem c7_preview_truncation_witness :
    getPreviewText "abcdefghij klmno".data 10 = "abcdefghij".data ++ "...".data ∧
      getPreviewText "abcdefghi jklmno".data 10 = "abcdefghi".data ++ "...".data ∧
      getPreviewText "short".data 10 = "short".data := by
  refine ⟨?_, ?_, ?_⟩
  · have h := (c7_preview_truncation "abcdefghij klmno".data 10).2.2 (by decide) (by decide)
    rw [h]
    decide
  · have h := ((c7_preview_truncation "abcdefghi jklmno".data 10).2.1 (by decide) 9
      (by decide)).1 (by decide)
    rw [h]
    decide
  · exact (c7_preview_truncation "short".data 10).1 (by decide)

/-- C8: formatting is total: every line is classified by the chain (the
paragraph case is the fallback), every input yields a block list, and
an absent or empty input yields no blocks. -/
theorem c8_totality :
    formatTextOpt Option.none = [] ∧ formatText "" = [] ∧
    (∀ s : String, ∃ bs : List Block, formatText s = bs) ∧
    (∀ l : List Char, classify l = Kind.blank ∨ classify l = Kind.header ∨
      classify l = Kind.numbered ∨ classify l = Kind.bullet ∨
      classify l = Kind.code ∨ classify l = Kind.para) := by
  refine ⟨rfl, by decide, fun s => ⟨_, rfl⟩, fun l => ?_⟩
  cases h : classify l
  · exact Or.inl rfl
  · exact Or.inr (Or.inl rfl)
  · exact Or.inr (Or.inr (Or.inl rfl))
  · exact Or.inr (Or.inr (Or.inr (Or.inl rfl)))
  · exact Or.inr (Or.inr (Or.inr (Or.inr (Or.inl rfl))))
  · exact Or.inr (Or.inr (Or.inr (Or.inr (Or.inr rfl))))

/-- C9: a line consisting of only the bullet glyph is classified as a
bulleted item and contributes an item with empty content; it also joins
the current bulleted group rather than being skipped. -/
theorem c9_lone_bullet_empty_item :
    classify ['•'] = Kind.bullet ∧ formatText "•" = [Block.bullet [[]]] ∧
      formatText "• a\n•" = [Block.bullet ["a".data, []]] := by
  decide

/-- C10: the stored number is the decimal value of the digit prefix, so
leading zeros are discarded: the distinct inputs `"01. foo"` and
`"1. foo"` produce identical output blocks, and the dropped zero is not
recoverable from the output. -/
theorem c10_leading_zero_collapse :
    "01. foo" ≠ "1. foo" ∧ formatText "01. foo" = formatText "1. foo" ∧
      formatText "01. foo" = [Block.numbered [(1, "foo".data)]] := by
  decide

end OrbitFmt
